import Mathlib

/-!
Verification of the RC-car control core (`rccar/web/app.py` and
`rccar/web/arduino_comm.py`) against its design specification.

The Python source is shallowly embedded: SQLite tables become lists of
records, the Flask session becomes an explicit record, the serial world
(available ports, cached connection, written bytes) becomes an explicit
state threaded through the functions, and Python exceptions become
`Except` results.  Function names follow the source.
-/

namespace RcCar

/-! ## Serial endpoints and port picking (`arduino_comm._pick_port`) -/

/-- One entry of `serial.tools.list_ports.comports()`: a device path plus
descriptive metadata.  `description`, `manufacturer` and `hwid` may be
`None` in Python, hence `Option`. -/
structure Endpoint where
  device : String
  description : Option String
  manufacturer : Option String
  hwid : Option String
deriving Repr, DecidableEq

/-- Python `x or ""` for an optional string. -/
def orEmpty : Option String → String
  | none => ""
  | some s => s

/-- Python `str.lower()` over the character list (the descriptor strings
in play are ASCII). -/
def toLowerPy (s : String) : String := ⟨s.data.map Char.toLower⟩

/-- Python `str.strip()`: drop whitespace from both ends. -/
def stripPy (s : String) : String :=
  ⟨((s.data.dropWhile Char.isWhitespace).reverse.dropWhile
      Char.isWhitespace).reverse⟩

/-- Decimal value of a digit string, `none` on empty input or any
non-digit character. -/
def digitsVal? (cs : List Char) : Option Nat :=
  if cs.isEmpty then none
  else cs.foldl (fun acc c =>
    acc.bind (fun n => if c.isDigit then some (n * 10 + (c.toNat - 48)) else none))
    (some 0)

/-- Python `int(s)` on a string: surrounding whitespace and one sign are
accepted, anything else non-decimal raises, modelled as `none`. -/
def intOfString? (s : String) : Option Int :=
  match (stripPy s).data with
  | '-' :: rest => (digitsVal? rest).map (fun n => -(n : Int))
  | '+' :: rest => (digitsVal? rest).map (fun n => (n : Int))
  | cs => (digitsVal? cs).map (fun n => (n : Int))

/-- Python `needle in haystack` on strings (substring containment): the
needle is a prefix of some suffix of the haystack. -/
def strContains (haystack needle : String) : Bool :=
  haystack.toList.tails.any (fun t => needle.toList.isPrefixOf t)

/-- The keyword list of `_pick_port` (source lines 52-61). -/
def keywords : List String :=
  ["arduino", "ch340", "cp210", "cp210x", "usb-serial", "usb serial",
   "silicon labs", "wch"]

/-- The combined lower-cased text `f"{desc} {manuf} {hwid}"` scored by
`_pick_port`. -/
def combinedText (p : Endpoint) : String :=
  toLowerPy (orEmpty p.description) ++ " " ++ toLowerPy (orEmpty p.manufacturer)
    ++ " " ++ toLowerPy (orEmpty p.hwid)

/-- `_pick_port`'s score of one endpoint: 10 per keyword occurring in the
combined text, plus a 20-point bonus when "arduino" occurs. -/
def scoreEndpoint (p : Endpoint) : Nat :=
  (keywords.foldl (fun acc kw =>
      if strContains (combinedText p) kw then acc + 10 else acc) 0)
    + (if strContains (combinedText p) "arduino" then 20 else 0)

/-- Stable descending insertion on the score component: the model of one
step of Python's stable `list.sort(reverse=True, key=score)`.  An element
is inserted before the first element whose score it reaches, so among
equal scores earlier (enumeration-order) elements stay first. -/
def insertDesc (x : Nat × String) : List (Nat × String) → List (Nat × String)
  | [] => [x]
  | y :: ys => if y.1 ≤ x.1 then x :: y :: ys else y :: insertDesc x ys

/-- Stable descending sort by score, the model of
`scored.sort(reverse=True, key=lambda x: x[0])`. -/
def sortDesc : List (Nat × String) → List (Nat × String)
  | [] => []
  | x :: xs => insertDesc x (sortDesc xs)

/-- Failure raised by `_pick_port` when no COM port exists. -/
inductive PickErr where
  | noPortFound
deriving Repr, DecidableEq

instance {ε α : Type} [DecidableEq ε] [DecidableEq α] :
    DecidableEq (Except ε α) := fun x y =>
  match x, y with
  | .ok a, .ok b =>
    if h : a = b then .isTrue (by rw [h])
    else .isFalse (fun hh => by cases hh; exact h rfl)
  | .ok _, .error _ => .isFalse (fun hh => by cases hh)
  | .error _, .ok _ => .isFalse (fun hh => by cases hh)
  | .error e, .error f =>
    if h : e = f then .isTrue (by rw [h])
    else .isFalse (fun hh => by cases hh; exact h rfl)

/-- `_pick_port` (source lines 39-90): error on zero ports; otherwise score
every port, sort descending (stably), return the best device if its score
is strictly positive, else the first enumerated device. -/
def pickPort (ports : List Endpoint) : Except PickErr String :=
  match ports with
  | [] => .error .noPortFound
  | p0 :: _ =>
    let scored := ports.map (fun p => (scoreEndpoint p, p.device))
    match sortDesc scored with
    | [] => .ok p0.device
    | best :: _ => if 0 < best.1 then .ok best.2 else .ok p0.device

/-- The first element of a list attaining the maximal score (ties go to
the earlier element).  Used to state what `pickPort` returns. -/
def firstMax : List (Nat × String) → Option (Nat × String)
  | [] => none
  | x :: xs =>
    match firstMax xs with
    | none => some x
    | some m => if m.1 ≤ x.1 then some x else some m

/-! ## Serial link state (`arduino_comm._connect` / `send_line`) -/

/-- The module-global `_ser` handle: the port it was opened on and its
`is_open` flag. -/
structure SerialConn where
  port : String
  is_open : Bool
deriving Repr, DecidableEq

/-- The process state `send_line` runs against: the host's port list, the
module globals `_ser` and `_cached_port`, two oracles saying whether an
`open` / a `write+flush` performed now would succeed (the physical world),
and the trace of lines successfully written so far. -/
structure SerialWorld where
  ports : List Endpoint
  ser : Option SerialConn
  cached_port : Option String
  openOk : Bool
  writeOk : Bool
  trace : List String
deriving Repr, DecidableEq

/-- The exceptions the bridge can raise: `_pick_port`'s RuntimeError, a
failure of `serial.Serial(...)`, and an I/O error of `write`/`flush`. -/
inductive SerialErr where
  | noPortFound
  | openFailed
  | writeFailed
deriving Repr, DecidableEq

/-- `_connect` (source lines 93-118): reuse `_ser` when it is open,
otherwise resolve a port (cached one first), open it, remember handle and
port.  A raised exception leaves the module globals untouched. -/
def connectSerial (w : SerialWorld) : Except SerialErr SerialConn × SerialWorld :=
  match w.ser with
  | some s =>
    if s.is_open then (.ok s, w)
    else openSerial w
  | none => openSerial w
where
  /-- The open path of `_connect`: `port = _cached_port or _pick_port()`,
  `serial.Serial(...)`, then publish `_ser` and `_cached_port`. -/
  openSerial (w : SerialWorld) : Except SerialErr SerialConn × SerialWorld :=
    match w.cached_port with
    | some p => openAt p w
    | none =>
      match pickPort w.ports with
      | .error _ => (.error .noPortFound, w)
      | .ok p => openAt p w
  /-- `serial.Serial(port=...)` plus the assignments that follow it. -/
  openAt (p : String) (w : SerialWorld) : Except SerialErr SerialConn × SerialWorld :=
    if w.openOk then
      let s : SerialConn := ⟨p, true⟩
      (.ok s, { w with ser := some s, cached_port := some p })
    else (.error .openFailed, w)

/-- `send_line` (source lines 121-131): build `cmd.strip() + "\n"`, then
under the lock connect, write and flush.  A write/flush failure raises,
leaving `_ser` and `_cached_port` exactly as `_connect` left them. -/
def send_line (cmd : String) (w : SerialWorld) : Except SerialErr Unit × SerialWorld :=
  let line := stripPy cmd ++ "\n"
  match connectSerial w with
  | (.error e, w') => (.error e, w')
  | (.ok _, w') =>
    if w'.writeOk then (.ok (), { w' with trace := w'.trace ++ [line] })
    else (.error .writeFailed, w')

/-! ## Persisted store (`app.py`, section 5 helpers) -/

/-- One row of the `cars` table. -/
structure Car where
  id : Int
  name : String
  servo_pin : Int
  servo_center_deg : Int
  servo_offset_deg : Int
  motor_max_pwm : Int
deriving Repr, DecidableEq

/-- One row of the `user_cars` grant table. -/
structure UserCar where
  user_id : Int
  car_id : Int
  access_role : String
deriving Repr, DecidableEq

/-- Modelled from the spec: the repository's `schema.sql` (the authority
for table shapes) is not in the source tree; per the spec the store has a
`cars` table and a grant table "keyed by (identity id, vehicle id) unique
pair".  `nextCarId` is the rowid SQLite would give the next inserted car.
The unique pair constraint is what makes the source's `INSERT OR IGNORE`
in `assign_car_to_user` a no-op on an already-present pair. -/
structure DB where
  cars : List Car
  user_cars : List UserCar
  nextCarId : Int
deriving Repr, DecidableEq

/-- Foreign-key consistency of the grant table: every grant row references
an existing car (`PRAGMA foreign_keys = ON` is set on every connection;
the FK declarations themselves live in the absent `schema.sql`). -/
def DB.fkOk (db : DB) : Bool :=
  db.user_cars.all (fun uc => db.cars.any (fun c => c.id == uc.car_id))

def DEFAULT_CAR_NAME : String := "DefaultCar"

/-- `ensure_default_car_exists` (source lines 152-172): return the id of
the first car named `DefaultCar`, inserting one with the fixed default
calibration when absent and re-reading its id.  The final fallback arm is
unreachable: the row was just inserted. -/
def ensure_default_car_exists (db : DB) : Int × DB :=
  match db.cars.find? (fun c => c.name == DEFAULT_CAR_NAME) with
  | some row => (row.id, db)
  | none =>
    let newCar : Car := ⟨db.nextCarId, DEFAULT_CAR_NAME, 3, 90, 45, 255⟩
    let db' : DB := ⟨db.cars ++ [newCar], db.user_cars, db.nextCarId + 1⟩
    match db'.cars.find? (fun c => c.name == DEFAULT_CAR_NAME) with
    | some row2 => (row2.id, db')
    | none => (0, db')

/-- `user_has_any_car` (source lines 175-180). -/
def user_has_any_car (db : DB) (u : Int) : Bool :=
  db.user_cars.any (fun uc => uc.user_id == u)

/-- `assign_car_to_user` (source lines 183-194): `INSERT OR IGNORE` of the
grant edge, a no-op when the (user, car) pair is already present. -/
def assign_car_to_user (db : DB) (u c : Int) : DB :=
  if db.user_cars.any (fun uc => uc.user_id == u && uc.car_id == c) then db
  else { db with user_cars := db.user_cars ++ [⟨u, c, "driver"⟩] }

/-- `ensure_user_has_default_car` (source lines 197-206). -/
def ensure_user_has_default_car (db : DB) (u : Int) : DB :=
  if user_has_any_car db u then db
  else
    let r := ensure_default_car_exists db
    assign_car_to_user r.2 u r.1

/-- Lexicographic code-point order on strings, the order SQLite's BINARY
collation gives on UTF-8 text. -/
def strLt : List Char → List Char → Bool
  | [], [] => false
  | [], _ :: _ => true
  | _ :: _, [] => false
  | c :: cs, d :: ds =>
    if c.toNat < d.toNat then true
    else if d.toNat < c.toNat then false
    else strLt cs ds

/-- `a ≤ b` in the BINARY collation. -/
def nameLe (a b : String) : Bool := ! strLt b.data a.data

/-- Stable ascending insertion by car name: among equal names the earlier
row stays first. -/
def insertByName (x : Car) : List Car → List Car
  | [] => [x]
  | y :: ys => if nameLe x.name y.name then x :: y :: ys else y :: insertByName x ys

/-- `ORDER BY cars.name` (SQLite BINARY collation is code-point order on
the UTF-8 text, matching `String`'s order). -/
def sortByName : List Car → List Car
  | [] => []
  | x :: xs => insertByName x (sortByName xs)

/-- `get_user_cars` (source lines 209-231): join `user_cars` with `cars`
restricted to the user, ordered by car name. -/
def get_user_cars (db : DB) (u : Int) : List Car :=
  sortByName (((db.user_cars.filter (fun uc => uc.user_id == u)).map
      (fun uc => db.cars.filter (fun c => c.id == uc.car_id))).flatten)

/-- `user_has_car_access` (source lines 234-241). -/
def user_has_car_access (db : DB) (u c : Int) : Bool :=
  db.user_cars.any (fun uc => uc.user_id == u && uc.car_id == c)

/-! ## Session state and the two API routes -/

/-- A value stored in the session under `active_car_id`: a number, or an
arbitrary (possibly non-numeric) string. -/
inductive SessVal where
  | num (n : Int)
  | raw (s : String)
deriving Repr, DecidableEq

/-- Python `int(x)` on a session value, `none` when it raises (`int`
accepts surrounding whitespace on strings). -/
def SessVal.toInt? : SessVal → Option Int
  | .num n => some n
  | .raw s => intOfString? s

/-- The slice of the Flask session the control core touches. -/
structure Session where
  user_id : Option Int
  active_car_id : Option SessVal
deriving Repr, DecidableEq

/-- The second half of `ensure_active_car_in_session` (source lines
256-271), run against the car list fetched first: with no cars, clear the
stored selection and report none; keep a stored selection that parses to
an id the user has access to; in every other case store and return the
first car of the list. -/
def resolve_active (db : DB) (sess : Session) (u : Int) (cars : List Car) :
    Option Int × DB × Session :=
  match cars with
  | [] => (none, db, { sess with active_car_id := none })
  | c0 :: _ =>
    match sess.active_car_id.bind SessVal.toInt? with
    | some a =>
      if user_has_car_access db u a then (some a, db, sess)
      else (some c0.id, db, { sess with active_car_id := some (.num c0.id) })
    | none => (some c0.id, db, { sess with active_car_id := some (.num c0.id) })

/-- `ensure_active_car_in_session` (source lines 244-271): fetch the
user's cars, auto-assigning the default car when there are none, then
resolve the stored selection against that list. -/
def ensure_active_car_in_session (db : DB) (sess : Session) (u : Int) :
    Option Int × DB × Session :=
  let cars := get_user_cars db u
  if cars.isEmpty then
    let db' := ensure_user_has_default_car db u
    resolve_active db' sess u (get_user_cars db' u)
  else resolve_active db sess u cars

/-- Outcome of `api_select_car`; the HTTP shape of each constructor is
given by `selectResponse`. -/
inductive SelectResult where
  | notLogged
  | invalidCarId
  | noAccess
  | ok (car : Int)
deriving Repr, DecidableEq

/-- Status code and error message of each `api_select_car` outcome, with
the source's literal strings; the success body carries no error text. -/
def selectResponse : SelectResult → Nat × String
  | .notLogged => (401, "Not logged in")
  | .invalidCarId => (400, "Invalid car_id")
  | .noAccess => (403, "No access to this car")
  | .ok _ => (200, "")

/-- `api_select_car` (source lines 485-511): login check, parse `car_id`,
auto-assign the default car, then either reject for missing access
(session untouched) or store the new active car. -/
def api_select_car (db : DB) (sess : Session) (carIdRaw : Option SessVal) :
    SelectResult × DB × Session :=
  match sess.user_id with
  | none => (.notLogged, db, sess)
  | some u =>
    match carIdRaw.bind SessVal.toInt? with
    | none => (.invalidCarId, db, sess)
    | some c =>
      let db1 := ensure_user_has_default_car db u
      if user_has_car_access db1 u c then
        (.ok c, db1, { sess with active_car_id := some (.num c) })
      else (.noAccess, db1, sess)

/-- The allowed command set of `api_control` (source line 534). -/
def allowedCmds : List String := ["STEER:L", "STEER:R", "STEER:C"]

/-- Outcome of `api_control`. -/
inductive ControlResult where
  | notLogged
  | cmdNotAllowed
  | noActiveCar
  | noAccess
  | arduinoMissing
  | sendFailed
  | ok (sent : String) (car : Int)
deriving Repr, DecidableEq

/-- `api_control` (source lines 514-557): login check, command validation
against the fixed set, default-car auto-assign, active-car resolution,
access check on the active car, then the serial write. -/
def api_control (db : DB) (sess : Session) (w : SerialWorld)
    (cmdRaw : String) (arduinoAvailable : Bool) :
    ControlResult × DB × Session × SerialWorld :=
  match sess.user_id with
  | none => (.notLogged, db, sess, w)
  | some u =>
    let cmd := stripPy cmdRaw
    if allowedCmds.contains cmd then
      let db1 := ensure_user_has_default_car db u
      match ensure_active_car_in_session db1 sess u with
      | (none, db2, sess2) => (.noActiveCar, db2, sess2, w)
      | (some c, db2, sess2) =>
        if user_has_car_access db2 u c then
          if arduinoAvailable then
            match send_line cmd w with
            | (.ok _, w') => (.ok cmd c, db2, sess2, w')
            | (.error _, w') => (.sendFailed, db2, sess2, w')
          else (.arduinoMissing, db2, sess2, w)
        else (.noAccess, db2, sess2, w)
    else (.cmdNotAllowed, db, sess, w)

/-! ## Concrete fixtures used by witnesses and counterexamples -/

def epGeneric : Endpoint := ⟨"COM1", some "Generic device", none, none⟩

def epUno : Endpoint :=
  ⟨"COM7", some "Arduino Uno (COM7)", some "Arduino LLC", some "USB VID:PID"⟩

def epCh : Endpoint := ⟨"COM3", some "USB-SERIAL CH340", none, none⟩

def carDefault : Car := ⟨1, "DefaultCar", 3, 90, 45, 255⟩

def carBeta : Car := ⟨2, "Beta", 3, 90, 45, 255⟩

def carGamma : Car := ⟨3, "Gamma", 3, 90, 45, 255⟩

/-- User 7 has grants for cars 1 and 2. -/
def dbTwo : DB := ⟨[carDefault, carBeta], [⟨7, 1, "driver"⟩, ⟨7, 2, "driver"⟩], 3⟩

/-- The fallback car exists but no grants at all. -/
def dbOnlyDefault : DB := ⟨[carDefault], [], 2⟩

/-- Three cars; user 7 has a grant only for car 1. -/
def dbThree : DB := ⟨[carDefault, carBeta, carGamma], [⟨7, 1, "driver"⟩], 4⟩

/-- User 1's grant for car 1 has been revoked; car 2 is still granted. -/
def dbRevoked : DB := ⟨[carDefault, carBeta], [⟨1, 2, "driver"⟩], 3⟩

/-- User 7 holds two grants and no fallback car exists. -/
def dbTwoGrantsNoDefault : DB :=
  ⟨[⟨1, "A", 3, 90, 45, 255⟩, ⟨2, "B", 3, 90, 45, 255⟩],
   [⟨7, 1, "driver"⟩, ⟨7, 2, "driver"⟩], 3⟩

/-- An open cached connection whose next write fails. -/
def wWriteFail : SerialWorld := ⟨[], some ⟨"COM3", true⟩, some "COM3", true, false, []⟩

/-- An open cached connection whose next write succeeds. -/
def wWriteOk : SerialWorld := ⟨[], some ⟨"COM3", true⟩, some "COM3", true, true, []⟩

/-! ## Lemmas about port scoring and the stable sort -/

theorem insertDesc_ne_nil (x : Nat × String) (l : List (Nat × String)) :
    insertDesc x l ≠ [] := by
  cases l with
  | nil => simp [insertDesc]
  | cons y ys =>
    simp only [insertDesc]
    split <;> simp

/-- On a nonempty list `firstMax` always produces a value. -/
theorem firstMax_isSome (a : Nat × String) (as : List (Nat × String)) :
    ∃ m, firstMax (a :: as) = some m := by
  simp only [firstMax]
  cases firstMax as with
  | none => exact ⟨a, rfl⟩
  | some m =>
    by_cases h : m.1 ≤ a.1
    · exact ⟨a, by dsimp only; rw [if_pos h]⟩
    · exact ⟨m, by dsimp only; rw [if_neg h]⟩

/-- The head of the stable descending sort is the first maximal element. -/
theorem sortDesc_head (l : List (Nat × String)) :
    (sortDesc l).head? = firstMax l := by
  induction l with
  | nil => rfl
  | cons x xs ih =>
    cases hs : sortDesc xs with
    | nil =>
      have hm : firstMax xs = none := by rw [← ih, hs]; rfl
      simp [sortDesc, firstMax, hs, hm, insertDesc]
    | cons b rest =>
      have hm : firstMax xs = some b := by rw [← ih, hs]; rfl
      simp only [sortDesc, firstMax, hs, hm, insertDesc]
      by_cases h : b.1 ≤ x.1
      · rw [if_pos h, if_pos h]; rfl
      · rw [if_neg h, if_neg h]; rfl

/-- `firstMax` returns a maximal element. -/
theorem firstMax_max (l : List (Nat × String)) (m : Nat × String)
    (h : firstMax l = some m) : ∀ x ∈ l, x.1 ≤ m.1 := by
  induction l generalizing m with
  | nil => simp [firstMax] at h
  | cons a as ih =>
    intro x hx
    simp only [firstMax] at h
    cases hm : firstMax as with
    | none =>
      rw [hm] at h
      have hma : a = m := Option.some.inj h
      cases as with
      | nil =>
        have hxa : x = a := by simpa using hx
        simp [hxa, hma]
      | cons b bs =>
        obtain ⟨m', hm'⟩ := firstMax_isSome b bs
        rw [hm'] at hm; cases hm
    | some m' =>
      rw [hm] at h
      dsimp only at h
      have hall := ih m' hm
      rcases List.mem_cons.mp hx with rfl | hx'
      · by_cases hle : m'.1 ≤ x.1
        · rw [if_pos hle] at h
          have := Option.some.inj h
          simp [this]
        · rw [if_neg hle] at h
          have := Option.some.inj h
          subst this
          omega
      · have hx1 := hall x hx'
        by_cases hle : m'.1 ≤ a.1
        · rw [if_pos hle] at h
          have := Option.some.inj h
          subst this
          omega
        · rw [if_neg hle] at h
          have := Option.some.inj h
          subst this
          exact hx1

/-- `firstMax` returns the earliest maximal element: everything before it
scores strictly less. -/
theorem firstMax_first (l : List (Nat × String)) (m : Nat × String)
    (h : firstMax l = some m) :
    ∃ l₁ l₂, l = l₁ ++ m :: l₂ ∧ ∀ x ∈ l₁, x.1 < m.1 := by
  induction l generalizing m with
  | nil => simp [firstMax] at h
  | cons a as ih =>
    simp only [firstMax] at h
    cases hm : firstMax as with
    | none =>
      rw [hm] at h
      have hma : a = m := Option.some.inj h
      exact ⟨[], as, by simp [hma], by simp⟩
    | some m' =>
      rw [hm] at h
      dsimp only at h
      by_cases hle : m'.1 ≤ a.1
      · rw [if_pos hle] at h
        have hma : a = m := Option.some.inj h
        exact ⟨[], as, by simp [hma], by simp⟩
      · rw [if_neg hle] at h
        have hmm : m' = m := Option.some.inj h
        subst hmm
        obtain ⟨l₁, l₂, heq, hlt⟩ := ih m' hm
        refine ⟨a :: l₁, l₂, by simp [heq], ?_⟩
        intro x hx
        rcases List.mem_cons.mp hx with rfl | hx'
        · omega
        · exact hlt x hx'

/-! ## Lemmas about the fleet-access helpers -/

theorem mem_insertByName (a x : Car) (l : List Car) :
    a ∈ insertByName x l ↔ a = x ∨ a ∈ l := by
  induction l with
  | nil => simp [insertByName]
  | cons y ys ih =>
    simp only [insertByName]
    by_cases h : nameLe x.name y.name = true
    · simp [h, List.mem_cons]
    · simp [h, List.mem_cons, ih]
      tauto

theorem mem_sortByName (a : Car) (l : List Car) :
    a ∈ sortByName l ↔ a ∈ l := by
  induction l with
  | nil => simp [sortByName]
  | cons x xs ih => simp [sortByName, mem_insertByName, ih]

theorem insertByName_ne_nil (x : Car) (l : List Car) :
    insertByName x l ≠ [] := by
  cases l with
  | nil => simp [insertByName]
  | cons y ys =>
    simp only [insertByName]
    split <;> simp

theorem sortByName_eq_nil (l : List Car) :
    sortByName l = [] ↔ l = [] := by
  cases l with
  | nil => simp [sortByName]
  | cons x xs =>
    simp only [sortByName]
    have := insertByName_ne_nil x (sortByName xs)
    simp [this]

/-- Membership in the user's car list is exactly "a grant row joins the
user to this car". -/
theorem mem_get_user_cars (db : DB) (u : Int) (c : Car) :
    c ∈ get_user_cars db u ↔
      ∃ uc ∈ db.user_cars, uc.user_id = u ∧ c ∈ db.cars ∧ c.id = uc.car_id := by
  simp only [get_user_cars, mem_sortByName, List.mem_flatten, List.mem_map,
    List.mem_filter, beq_iff_eq]
  constructor
  · rintro ⟨l, ⟨uc, ⟨hmem, huid⟩, rfl⟩, hc⟩
    rw [List.mem_filter, beq_iff_eq] at hc
    exact ⟨uc, hmem, huid, hc.1, hc.2⟩
  · rintro ⟨uc, hmem, huid, hcmem, hcid⟩
    exact ⟨_, ⟨uc, ⟨hmem, huid⟩, rfl⟩, by rw [List.mem_filter, beq_iff_eq]; exact ⟨hcmem, hcid⟩⟩

theorem access_of_mem_get_user_cars (db : DB) (u : Int) (c : Car)
    (h : c ∈ get_user_cars db u) : user_has_car_access db u c.id = true := by
  rw [mem_get_user_cars] at h
  obtain ⟨uc, hmem, huid, _, hcid⟩ := h
  simp only [user_has_car_access, List.any_eq_true]
  exact ⟨uc, hmem, by simp [huid, hcid]⟩

theorem any_of_access (db : DB) (u a : Int)
    (h : user_has_car_access db u a = true) : user_has_any_car db u = true := by
  simp only [user_has_car_access, List.any_eq_true, Bool.and_eq_true] at h
  obtain ⟨uc, hmem, huid, _⟩ := h
  simp only [user_has_any_car, List.any_eq_true]
  exact ⟨uc, hmem, huid⟩

theorem get_user_cars_ne_nil_of_car (db : DB) (u a : Int)
    (hacc : user_has_car_access db u a = true)
    (hcar : ∃ c ∈ db.cars, c.id = a) : get_user_cars db u ≠ [] := by
  simp only [user_has_car_access, List.any_eq_true, Bool.and_eq_true,
    beq_iff_eq] at hacc
  obtain ⟨uc, hmem, huid, hcid⟩ := hacc
  obtain ⟨c, hcmem, hcida⟩ := hcar
  intro hnil
  have : c ∈ get_user_cars db u :=
    (mem_get_user_cars db u c).mpr ⟨uc, hmem, huid, hcmem, by rw [hcida, hcid]⟩
  rw [hnil] at this
  simp at this

theorem get_user_cars_ne_nil (db : DB) (u : Int) (hfk : db.fkOk = true)
    (hany : user_has_any_car db u = true) : get_user_cars db u ≠ [] := by
  simp only [user_has_any_car, List.any_eq_true, beq_iff_eq] at hany
  obtain ⟨uc, hmem, huid⟩ := hany
  simp only [DB.fkOk, List.all_eq_true] at hfk
  have := hfk uc hmem
  simp only [List.any_eq_true, beq_iff_eq] at this
  obtain ⟨c, hcmem, hcid⟩ := this
  apply get_user_cars_ne_nil_of_car db u uc.car_id
  · simp only [user_has_car_access, List.any_eq_true]
    exact ⟨uc, hmem, by simp [huid]⟩
  · exact ⟨c, hcmem, hcid⟩

/-- `ensure_default_car_exists` returns the id of a car that exists and is
named `DefaultCar`, extends the cars table on the right, and leaves the
grant table alone. -/
theorem ensure_default_spec (db : DB) :
    (∃ c ∈ (ensure_default_car_exists db).2.cars,
        c.id = (ensure_default_car_exists db).1 ∧ c.name = DEFAULT_CAR_NAME) ∧
    (ensure_default_car_exists db).2.user_cars = db.user_cars ∧
    (∃ ext, (ensure_default_car_exists db).2.cars = db.cars ++ ext) := by
  unfold ensure_default_car_exists
  cases hf : db.cars.find? (fun c => c.name == DEFAULT_CAR_NAME) with
  | some row =>
    have hmem := List.mem_of_find?_eq_some hf
    have hname := List.find?_some hf
    rw [beq_iff_eq] at hname
    exact ⟨⟨row, hmem, rfl, hname⟩, rfl, ⟨[], by simp⟩⟩
  | none =>
    dsimp only
    cases hf2 : (db.cars ++ [(⟨db.nextCarId, DEFAULT_CAR_NAME, 3, 90, 45, 255⟩ : Car)]).find?
        (fun c => c.name == DEFAULT_CAR_NAME) with
    | some row2 =>
      have hmem := List.mem_of_find?_eq_some hf2
      have hname := List.find?_some hf2
      rw [beq_iff_eq] at hname
      exact ⟨⟨row2, hmem, rfl, hname⟩, rfl, ⟨_, rfl⟩⟩
    | none =>
      exfalso
      rw [List.find?_eq_none] at hf2
      have := hf2 ⟨db.nextCarId, DEFAULT_CAR_NAME, 3, 90, 45, 255⟩ (by simp)
      simp at this

theorem assign_cars (db : DB) (u c : Int) :
    (assign_car_to_user db u c).cars = db.cars := by
  unfold assign_car_to_user
  split <;> rfl

theorem assign_access (db : DB) (u c : Int) :
    user_has_car_access (assign_car_to_user db u c) u c = true := by
  unfold assign_car_to_user user_has_car_access
  by_cases h : db.user_cars.any (fun uc => uc.user_id == u && uc.car_id == c) = true
  · simp [h]
  · simp [h]

theorem assign_edges (db : DB) (u c : Int) :
    ∀ uc ∈ (assign_car_to_user db u c).user_cars,
      uc ∈ db.user_cars ∨ uc = ⟨u, c, "driver"⟩ := by
  unfold assign_car_to_user
  split
  · intro uc h; exact .inl h
  · intro uc h
    rcases List.mem_append.mp h with h' | h'
    · exact .inl h'
    · exact .inr (by simpa using h')

/-- A second `ensure_user_has_default_car` is a no-op: after the first
call the user always has a car. -/
theorem euhdc_any (db : DB) (u : Int) :
    user_has_any_car (ensure_user_has_default_car db u) u = true := by
  unfold ensure_user_has_default_car
  by_cases h : user_has_any_car db u = true
  · simp [h]
  · simp only [h, Bool.false_eq_true, if_false]
    have hacc := assign_access (ensure_default_car_exists db).2 u
      (ensure_default_car_exists db).1
    exact any_of_access _ u _ hacc

theorem euhdc_eq_assign (db : DB) (u : Int) (h : user_has_any_car db u = false) :
    ensure_user_has_default_car db u
      = assign_car_to_user (ensure_default_car_exists db).2 u
          (ensure_default_car_exists db).1 := by
  unfold ensure_user_has_default_car
  simp [h]

theorem euhdc_noop (db : DB) (u : Int) (h : user_has_any_car db u = true) :
    ensure_user_has_default_car db u = db := by
  unfold ensure_user_has_default_car
  simp [h]

theorem euhdc_idem (db : DB) (u : Int) :
    ensure_user_has_default_car (ensure_user_has_default_car db u) u
      = ensure_user_has_default_car db u :=
  euhdc_noop _ u (euhdc_any db u)

/-- The ensured store keeps every car the original store had. -/
theorem euhdc_cars (db : DB) (u : Int) :
    ∃ ext, (ensure_user_has_default_car db u).cars = db.cars ++ ext := by
  unfold ensure_user_has_default_car
  by_cases h : user_has_any_car db u = true
  · exact ⟨[], by simp [h]⟩
  · simp only [h, Bool.false_eq_true, if_false]
    rw [assign_cars]
    exact (ensure_default_spec db).2.2

/-- Foreign-key consistency survives the default-car auto-assign. -/
theorem euhdc_fkOk (db : DB) (u : Int) (hfk : db.fkOk = true) :
    (ensure_user_has_default_car db u).fkOk = true := by
  unfold ensure_user_has_default_car
  by_cases h : user_has_any_car db u = true
  · simpa [h] using hfk
  · simp only [h, Bool.false_eq_true, if_false]
    obtain ⟨⟨cdef, hcdef, hciddef, _⟩, hedges, ⟨ext, hcars⟩⟩ := ensure_default_spec db
    simp only [DB.fkOk, List.all_eq_true]
    intro uc hmem
    rcases assign_edges _ u _ uc hmem with hold | hnew
    · rw [hedges] at hold
      simp only [DB.fkOk, List.all_eq_true] at hfk
      have := hfk uc hold
      simp only [List.any_eq_true, beq_iff_eq] at this ⊢
      obtain ⟨c, hcmem, hcid⟩ := this
      exact ⟨c, by rw [assign_cars, hcars]; exact List.mem_append_left _ hcmem, hcid⟩
    · subst hnew
      simp only [List.any_eq_true, beq_iff_eq]
      exact ⟨cdef, by rw [assign_cars]; exact hcdef, hciddef⟩

/-- After the auto-assign the user's car list is never empty. -/
theorem euhdc_ne_nil (db : DB) (u : Int) (hfk : db.fkOk = true) :
    get_user_cars (ensure_user_has_default_car db u) u ≠ [] := by
  unfold ensure_user_has_default_car
  by_cases h : user_has_any_car db u = true
  · simp only [h, if_true]
    exact get_user_cars_ne_nil db u hfk h
  · simp only [h, Bool.false_eq_true, if_false]
    obtain ⟨⟨cdef, hcdef, hciddef, _⟩, _, _⟩ := ensure_default_spec db
    apply get_user_cars_ne_nil_of_car _ u (ensure_default_car_exists db).1
    · exact assign_access _ u _
    · exact ⟨cdef, by rw [assign_cars]; exact hcdef, hciddef⟩

/-! ## Lemmas about active-selection resolution -/

theorem resolve_active_nil (db : DB) (sess : Session) (u : Int) :
    resolve_active db sess u [] = (none, db, { sess with active_car_id := none }) := rfl

theorem resolve_active_keep (db : DB) (sess : Session) (u a : Int)
    (c0 : Car) (rest : List Car)
    (hb : sess.active_car_id.bind SessVal.toInt? = some a)
    (hacc : user_has_car_access db u a = true) :
    resolve_active db sess u (c0 :: rest) = (some a, db, sess) := by
  simp [resolve_active, hb, hacc]

theorem resolve_active_replace (db : DB) (sess : Session) (u : Int)
    (c0 : Car) (rest : List Car)
    (hb : sess.active_car_id.bind SessVal.toInt? = none ∨
      ∃ a, sess.active_car_id.bind SessVal.toInt? = some a ∧
        user_has_car_access db u a = false) :
    resolve_active db sess u (c0 :: rest)
      = (some c0.id, db, { sess with active_car_id := some (.num c0.id) }) := by
  rcases hb with hb | ⟨a, hb, hacc⟩
  · simp [resolve_active, hb]
  · simp [resolve_active, hb, hacc]

/-- Whatever `resolve_active` returns when fed the user's own car list, it
is a car the user has access to, and the store is returned unchanged. -/
theorem resolve_active_access (db : DB) (sess : Session) (u : Int)
    (v : Int) (db' : DB) (s' : Session)
    (h : resolve_active db sess u (get_user_cars db u) = (some v, db', s')) :
    db' = db ∧ user_has_car_access db u v = true := by
  cases hc : get_user_cars db u with
  | nil => rw [hc, resolve_active_nil] at h; cases h
  | cons c0 rest =>
    have hc0 : c0 ∈ get_user_cars db u := by rw [hc]; exact List.mem_cons_self c0 rest
    have hacc0 := access_of_mem_get_user_cars db u c0 hc0
    rw [hc] at h
    cases hb : sess.active_car_id.bind SessVal.toInt? with
    | some a =>
      by_cases hacc : user_has_car_access db u a = true
      · rw [resolve_active_keep db sess u a c0 rest hb hacc] at h
        rw [Prod.mk.injEq, Prod.mk.injEq] at h
        obtain ⟨h1, h2, h3⟩ := h
        cases Option.some.inj h1
        exact ⟨h2.symm, hacc⟩
      · rw [resolve_active_replace db sess u c0 rest
          (.inr ⟨a, hb, by simpa using hacc⟩)] at h
        rw [Prod.mk.injEq, Prod.mk.injEq] at h
        obtain ⟨h1, h2, h3⟩ := h
        cases Option.some.inj h1
        exact ⟨h2.symm, hacc0⟩
    | none =>
      rw [resolve_active_replace db sess u c0 rest (.inl hb)] at h
      rw [Prod.mk.injEq, Prod.mk.injEq] at h
      obtain ⟨h1, h2, h3⟩ := h
      cases Option.some.inj h1
      exact ⟨h2.symm, hacc0⟩

theorem ensure_active_of_ne_nil (db : DB) (sess : Session) (u : Int)
    (h : get_user_cars db u ≠ []) :
    ensure_active_car_in_session db sess u
      = resolve_active db sess u (get_user_cars db u) := by
  unfold ensure_active_car_in_session
  cases hc : get_user_cars db u with
  | nil => exact absurd hc h
  | cons c0 rest => simp [hc]

theorem ensure_active_of_nil (db : DB) (sess : Session) (u : Int)
    (h : get_user_cars db u = []) :
    ensure_active_car_in_session db sess u
      = resolve_active (ensure_user_has_default_car db u) sess u
          (get_user_cars (ensure_user_has_default_car db u) u) := by
  unfold ensure_active_car_in_session
  simp [h]

/-- Resolution always hands back a granted car: whatever
`ensure_active_car_in_session` resolves to, the user has access to it in
the store it returns. -/
theorem ensure_active_access (db : DB) (sess : Session) (u : Int)
    (v : Int) (db' : DB) (s' : Session)
    (h : ensure_active_car_in_session db sess u = (some v, db', s')) :
    user_has_car_access db' u v = true := by
  by_cases hc : get_user_cars db u = []
  · rw [ensure_active_of_nil db sess u hc] at h
    obtain ⟨hdb, hacc⟩ := resolve_active_access _ sess u v db' s' h
    rw [hdb]
    exact hacc
  · rw [ensure_active_of_ne_nil db sess u hc] at h
    obtain ⟨hdb, hacc⟩ := resolve_active_access db sess u v db' s' h
    rw [hdb]
    exact hacc

/-! ## Claim C3: port resolution -/

/-- On a nonempty port list `pickPort` succeeds and returns the device of
the first maximal-score entry when that score is positive, else the first
enumerated device. -/
theorem pickPort_cons (p0 : Endpoint) (rest : List Endpoint) :
    ∃ m, firstMax ((p0 :: rest).map (fun p => (scoreEndpoint p, p.device))) = some m ∧
      pickPort (p0 :: rest) = .ok (if 0 < m.1 then m.2 else p0.device) := by
  obtain ⟨m, hm⟩ := firstMax_isSome (scoreEndpoint p0, p0.device)
    (rest.map (fun p => (scoreEndpoint p, p.device)))
  have hm' : firstMax ((p0 :: rest).map (fun p => (scoreEndpoint p, p.device))) = some m := by
    rw [List.map_cons]
    exact hm
  refine ⟨m, hm', ?_⟩
  have hhead : (sortDesc ((p0 :: rest).map (fun p => (scoreEndpoint p, p.device)))).head?
      = some m := by
    rw [sortDesc_head]
    exact hm'
  simp only [pickPort]
  cases hs : sortDesc ((p0 :: rest).map (fun p => (scoreEndpoint p, p.device))) with
  | nil => rw [hs] at hhead; cases hhead
  | cons b bs =>
    rw [hs] at hhead
    have hb : b = m := Option.some.inj hhead
    subst hb
    dsimp only
    by_cases h1 : 0 < b.1
    · rw [if_pos h1, if_pos h1]
    · rw [if_neg h1, if_neg h1]

/-- C3: `_pick_port` fails with `NoPortFound` exactly when the host
enumerates zero serial endpoints; otherwise it returns the device of the
highest-scoring endpoint when that score is strictly positive (ties going
to the earlier endpoint in enumeration order, everything before the winner
scoring strictly less), and the first enumerated device otherwise. -/
theorem c3_port_resolution (ports : List Endpoint) :
    (pickPort ports = .error .noPortFound ↔ ports = []) ∧
    (∀ p0 rest, ports = p0 :: rest →
      ∃ m, firstMax (ports.map (fun p => (scoreEndpoint p, p.device))) = some m ∧
        (∀ p ∈ ports, scoreEndpoint p ≤ m.1) ∧
        (∃ l₁ l₂, ports.map (fun p => (scoreEndpoint p, p.device)) = l₁ ++ m :: l₂ ∧
          ∀ x ∈ l₁, x.1 < m.1) ∧
        pickPort ports = .ok (if 0 < m.1 then m.2 else p0.device)) := by
  constructor
  · constructor
    · intro h
      cases hp : ports with
      | nil => rfl
      | cons p0 rest =>
        exfalso
        obtain ⟨m, _, hok⟩ := pickPort_cons p0 rest
        rw [hp, hok] at h
        cases h
    · intro h
      rw [h]
      rfl
  · intro p0 rest hp
    subst hp
    obtain ⟨m, hm, hok⟩ := pickPort_cons p0 rest
    refine ⟨m, hm, ?_, ?_, hok⟩
    · intro p hpmem
      have : (scoreEndpoint p, p.device)
          ∈ (p0 :: rest).map (fun p => (scoreEndpoint p, p.device)) :=
        List.mem_map_of_mem _ hpmem
      exact firstMax_max _ m hm _ this
    · exact firstMax_first _ m hm

/-- C3 witness: on a concrete three-endpoint host the Arduino endpoint
(score 30) wins, and the zero-endpoint host fails. -/
theorem c3_witness :
    pickPort [epGeneric, epUno, epCh] = .ok "COM7" ∧
    pickPort ([] : List Endpoint) = .error .noPortFound := by
  constructor
  · obtain ⟨m, hm, hmax, hfirst, hres⟩ :=
      (c3_port_resolution [epGeneric, epUno, epCh]).2 epGeneric [epUno, epCh] rfl
    have hm' : firstMax ([epGeneric, epUno, epCh].map (fun p => (scoreEndpoint p, p.device)))
        = some (30, "COM7") := by decide
    rw [hm'] at hm
    cases Option.some.inj hm
    simpa using hres
  · exact (c3_port_resolution []).1.mpr rfl

/-! ## Claim C1: serial write failure handling -/

/-- C1 counterexample: with an open cached connection and a failing write,
`send_line` propagates the I/O failure but retains the cached handle and
its open flag — the link is not marked closed and the handle is not
discarded, so the next call reuses it instead of re-opening. -/
theorem c1_counterexample :
    (send_line "STEER:L" wWriteFail).1 = .error .writeFailed ∧
    (send_line "STEER:L" wWriteFail).2.ser = some ⟨"COM3", true⟩ ∧
    (send_line "STEER:L" wWriteFail).2.ser ≠ none := by decide

/-- C1 amended: `send_line` runs under the lock, obtains or opens the
connection via `_connect`, writes `cmd.strip() + "\n"` and flushes; on an
I/O error during the write the exception propagates unchanged and the
module state (cached handle, cached port, open flag) is left exactly as
`_connect` left it — no teardown happens and no `LinkUnavailable` wrapper
exists. -/
theorem c1_amended (w : SerialWorld) (cmd : String) (s : SerialConn)
    (hser : w.ser = some s) (hopen : s.is_open = true) :
    (w.writeOk = true →
      send_line cmd w
        = (.ok (), { w with trace := w.trace ++ [stripPy cmd ++ "\n"] })) ∧
    (w.writeOk = false → send_line cmd w = (.error .writeFailed, w)) := by
  have hc : connectSerial w = (.ok s, w) := by
    unfold connectSerial
    rw [hser]
    simp [hopen]
  constructor
  · intro hw
    unfold send_line
    rw [hc]
    simp [hw]
  · intro hw
    unfold send_line
    rw [hc]
    simp [hw]

/-- C1 witness: a successful write through an open cached connection
appends exactly the newline-terminated command to the wire trace. -/
theorem c1_witness :
    send_line "STEER:L" wWriteOk
      = (.ok (), { wWriteOk with trace := wWriteOk.trace ++ [stripPy "STEER:L" ++ "\n"] }) :=
  (c1_amended wWriteOk "STEER:L" ⟨"COM3", true⟩ rfl rfl).1 rfl

/-! ## Claim C2: resolution only yields granted vehicles -/

/-- C2: for every identity holding at least one grant (in a store whose
grant rows reference existing vehicles, as the enabled foreign keys
guarantee), active-selection resolution returns a vehicle id for which a
grant exists for that identity — never a vehicle the identity lacks a
grant for. -/
theorem c2_resolution_grants (db : DB) (sess : Session) (u : Int)
    (hfk : db.fkOk = true) (hany : user_has_any_car db u = true) :
    ∃ v, (ensure_active_car_in_session db sess u).1 = some v ∧
      user_has_car_access db u v = true := by
  have hne := get_user_cars_ne_nil db u hfk hany
  rw [ensure_active_of_ne_nil db sess u hne]
  cases hc : get_user_cars db u with
  | nil => exact absurd hc hne
  | cons c0 rest =>
    have hacc0 : user_has_car_access db u c0.id = true :=
      access_of_mem_get_user_cars db u c0 (by rw [hc]; exact List.mem_cons_self c0 rest)
    cases hb : sess.active_car_id.bind SessVal.toInt? with
    | some a =>
      by_cases hacc : user_has_car_access db u a = true
      · rw [resolve_active_keep db sess u a c0 rest hb hacc]
        exact ⟨a, rfl, hacc⟩
      · rw [resolve_active_replace db sess u c0 rest (.inr ⟨a, hb, by simpa using hacc⟩)]
        exact ⟨c0.id, rfl, hacc0⟩
    | none =>
      rw [resolve_active_replace db sess u c0 rest (.inl hb)]
      exact ⟨c0.id, rfl, hacc0⟩

/-- C2 witness: user 7 with two grants resolves to a granted car. -/
theorem c2_witness :
    ∃ v, (ensure_active_car_in_session dbTwo ⟨some 7, none⟩ 7).1 = some v ∧
      user_has_car_access dbTwo 7 v = true :=
  c2_resolution_grants dbTwo ⟨some 7, none⟩ 7 (by decide) (by decide)

/-! ## Claim C7: stability of a valid stored selection -/

/-- C7: when the stored candidate parses to a vehicle the identity still
has a grant for, resolution returns it unchanged (store and session
untouched); when the user has at least one car and the candidate is absent
or no longer granted, resolution stores and returns the first vehicle of
the user's list ordered by name. -/
theorem c7_selection_stability (db : DB) (sess : Session) (u : Int)
    (hfk : db.fkOk = true) :
    (∀ sv a, sess.active_car_id = some sv → SessVal.toInt? sv = some a →
        user_has_car_access db u a = true →
        ensure_active_car_in_session db sess u = (some a, db, sess)) ∧
    (∀ c0 rest, get_user_cars db u = c0 :: rest →
        (sess.active_car_id.bind SessVal.toInt? = none ∨
          ∃ a, sess.active_car_id.bind SessVal.toInt? = some a ∧
            user_has_car_access db u a = false) →
        ensure_active_car_in_session db sess u
          = (some c0.id, db, { sess with active_car_id := some (.num c0.id) })) := by
  constructor
  · intro sv a hsv ha hacc
    have hany := any_of_access db u a hacc
    have hne := get_user_cars_ne_nil db u hfk hany
    rw [ensure_active_of_ne_nil db sess u hne]
    cases hc : get_user_cars db u with
    | nil => exact absurd hc hne
    | cons c0 rest =>
      exact resolve_active_keep db sess u a c0 rest (by rw [hsv]; simpa using ha) hacc
  · intro c0 rest hc hb
    have hne : get_user_cars db u ≠ [] := by rw [hc]; simp
    rw [ensure_active_of_ne_nil db sess u hne, hc]
    exact resolve_active_replace db sess u c0 rest hb

/-- C7 witness: a still-granted stored choice (car 1) survives; a stale
stored choice (car 9) is replaced by the first car by name ("Beta"). -/
theorem c7_witness :
    ensure_active_car_in_session dbTwo ⟨some 7, some (.num 1)⟩ 7
      = (some 1, dbTwo, ⟨some 7, some (.num 1)⟩) ∧
    ensure_active_car_in_session dbTwo ⟨some 7, some (.num 9)⟩ 7
      = (some 2, dbTwo, ⟨some 7, some (.num 2)⟩) := by
  constructor
  · exact (c7_selection_stability dbTwo ⟨some 7, some (.num 1)⟩ 7 (by decide)).1
      (.num 1) 1 rfl rfl (by decide)
  · have h := (c7_selection_stability dbTwo ⟨some 7, some (.num 9)⟩ 7 (by decide)).2
      carBeta [carDefault] (by decide) (.inr ⟨9, rfl, by decide⟩)
    simpa using h

/-! ## Claim C10: malformed stored selection -/

theorem resolve_active_congr (db : DB) (u : Int) (cars : List Car)
    (s1 s2 : Session) (huid : s1.user_id = s2.user_id)
    (h1 : s1.active_car_id.bind SessVal.toInt? = none)
    (h2 : s2.active_car_id.bind SessVal.toInt? = none) :
    resolve_active db s1 u cars = resolve_active db s2 u cars := by
  cases cars with
  | nil =>
    rw [resolve_active_nil, resolve_active_nil]
    cases s1; cases s2
    simp_all
  | cons c0 rest =>
    rw [resolve_active_replace db s1 u c0 rest (.inl h1),
        resolve_active_replace db s2 u c0 rest (.inl h2)]
    cases s1; cases s2
    simp_all

/-- C10: a stored selection that Python's `int()` cannot parse never makes
resolution raise — it behaves exactly as if no selection were stored, and
with a nonempty car list it resolves to the first granted vehicle. -/
theorem c10_malformed_selection_total (db : DB) (sess : Session) (u : Int)
    (s : String) (hs : intOfString? s = none) :
    ensure_active_car_in_session db { sess with active_car_id := some (.raw s) } u
      = ensure_active_car_in_session db { sess with active_car_id := none } u ∧
    (∀ c0 rest, get_user_cars db u = c0 :: rest →
      (ensure_active_car_in_session db
          { sess with active_car_id := some (.raw s) } u).1 = some c0.id) := by
  have hb1 : ({ sess with active_car_id := some (.raw s) } :
      Session).active_car_id.bind SessVal.toInt? = none := by
    simpa [SessVal.toInt?] using hs
  have hb2 : ({ sess with active_car_id := none } :
      Session).active_car_id.bind SessVal.toInt? = none := rfl
  constructor
  · by_cases hc : get_user_cars db u = []
    · rw [ensure_active_of_nil db _ u hc, ensure_active_of_nil db _ u hc]
      exact resolve_active_congr _ u _ _ _ rfl hb1 hb2
    · rw [ensure_active_of_ne_nil db _ u hc, ensure_active_of_ne_nil db _ u hc]
      exact resolve_active_congr _ u _ _ _ rfl hb1 hb2
  · intro c0 rest hc
    have hne : get_user_cars db u ≠ [] := by rw [hc]; simp
    rw [ensure_active_of_ne_nil db _ u hne, hc,
      resolve_active_replace db _ u c0 rest (.inl hb1)]

/-- C10 witness: the unparsable stored value "garbage" is treated as
absent and resolution yields the first granted car (id 2, "Beta"). -/
theorem c10_witness :
    (ensure_active_car_in_session dbTwo ⟨some 7, some (.raw "garbage")⟩ 7
      = ensure_active_car_in_session dbTwo ⟨some 7, none⟩ 7) ∧
    (ensure_active_car_in_session dbTwo ⟨some 7, some (.raw "garbage")⟩ 7).1 = some 2 := by
  have h := c10_malformed_selection_total dbTwo ⟨some 7, none⟩ 7 "garbage" (by decide)
  exact ⟨h.1, by simpa using h.2 carBeta [carDefault] (by decide)⟩

/-! ## Claim C4: command validation -/

/-- C4: for every logged-in identity, store, session and serial state,
a command outside the fixed three-element set \{STEER:L, STEER:R,
STEER:C\} (such as "STEER:X") is rejected with the command-not-allowed
failure before any state change, and no serial write occurs. -/
theorem c4_command_validation (db : DB) (sess : Session) (w : SerialWorld)
    (u : Int) (cmdRaw : String) (arduino : Bool)
    (hu : sess.user_id = some u)
    (hcmd : stripPy cmdRaw ∉ allowedCmds) :
    api_control db sess w cmdRaw arduino = (.cmdNotAllowed, db, sess, w) ∧
    (api_control db sess w cmdRaw arduino).2.2.2.trace = w.trace := by
  have h : api_control db sess w cmdRaw arduino = (.cmdNotAllowed, db, sess, w) := by
    unfold api_control
    rw [hu]
    simp [hcmd]
  exact ⟨h, by rw [h]⟩

/-- C4 witness: "STEER:X" is rejected for a fully authorized user and the
wire trace is untouched. -/
theorem c4_witness :
    api_control dbTwo ⟨some 7, some (.num 1)⟩ wWriteOk "STEER:X" true
      = (.cmdNotAllowed, dbTwo, ⟨some 7, some (.num 1)⟩, wWriteOk) ∧
    (api_control dbTwo ⟨some 7, some (.num 1)⟩ wWriteOk "STEER:X" true).2.2.2.trace
      = wWriteOk.trace :=
  c4_command_validation dbTwo ⟨some 7, some (.num 1)⟩ wWriteOk 7 "STEER:X" true rfl
    (by decide)

/-! ## Claim C5: access isolation -/

/-- C5 counterexample: identity 1 holds no grant for vehicle 1 in the
store, yet selecting vehicle 1 succeeds and changes the session — because
`api_select_car` first runs the fallback auto-assign, which grants the
fallback vehicle to a grantless identity before the access check. -/
theorem c5_counterexample :
    user_has_car_access dbOnlyDefault 1 1 = false ∧
    (api_select_car dbOnlyDefault ⟨some 1, none⟩ (some (.num 1))).1
      = SelectResult.ok 1 ∧
    (api_select_car dbOnlyDefault ⟨some 1, none⟩ (some (.num 1))).2.2
      ≠ (⟨some 1, none⟩ : Session) := by decide

/-- C5 amended: selecting a vehicle the identity has no grant for fails
with the access-denied error and leaves the session unchanged, provided
the grant is still absent after the fallback auto-assign (equivalently:
except when the identity had zero grants and the vehicle is the fallback
vehicle, which the auto-assign grants before the check).  The control
endpoint takes no vehicle argument: it always re-resolves the active
vehicle to a granted one first, so it never produces the access-denied
outcome at all. -/
theorem c5_access_isolation_amended (db : DB) (sess : Session) (u b : Int)
    (hu : sess.user_id = some u)
    (hacc : user_has_car_access (ensure_user_has_default_car db u) u b = false) :
    api_select_car db sess (some (.num b))
      = (.noAccess, ensure_user_has_default_car db u, sess) ∧
    (∀ w cmdRaw arduino, (api_control db sess w cmdRaw arduino).1
      ≠ ControlResult.noAccess) := by
  constructor
  · unfold api_select_car
    rw [hu]
    simp [SessVal.toInt?, hacc]
  · intro w cmdRaw arduino
    unfold api_control
    rw [hu]
    dsimp only
    by_cases hcm : stripPy cmdRaw ∈ allowedCmds
    · rw [if_pos (by simpa using hcm)]
      rcases he : ensure_active_car_in_session (ensure_user_has_default_car db u) sess u
        with ⟨r, db2, sess2⟩
      cases r with
      | none => simp
      | some c =>
        have hacc2 := ensure_active_access _ sess u c db2 sess2 he
        dsimp only
        rw [if_pos hacc2]
        cases arduino with
        | false => simp
        | true =>
          simp only [if_true]
          rcases hsend : send_line (stripPy cmdRaw) w with ⟨res, w2⟩
          cases res with
          | ok a => simp
          | error e => simp
    · rw [if_neg (by simpa using hcm)]
      simp

/-- C5 witness: user 7 (who holds grants for other cars) cannot select
the ungranted car id 99, and the control endpoint never reports the
access-denied outcome for them. -/
theorem c5_witness :
    api_select_car dbTwo ⟨some 7, some (.num 1)⟩ (some (.num 99))
      = (.noAccess, ensure_user_has_default_car dbTwo 7, ⟨some 7, some (.num 1)⟩) ∧
    (∀ w cmdRaw arduino,
      (api_control dbTwo ⟨some 7, some (.num 1)⟩ w cmdRaw arduino).1
        ≠ ControlResult.noAccess) :=
  c5_access_isolation_amended dbTwo ⟨some 7, some (.num 1)⟩ 7 99 rfl (by decide)

/-! ## Claim C6: idempotence of the default-car auto-assign -/

/-- When the store holds at most one fallback row, `ensure_default_car_exists`
leaves it with exactly one. -/
theorem ensure_default_count (db : DB)
    (hdef : (db.cars.filter (fun c => c.name == DEFAULT_CAR_NAME)).length ≤ 1) :
    (((ensure_default_car_exists db).2.cars).filter
        (fun c => c.name == DEFAULT_CAR_NAME)).length = 1 := by
  unfold ensure_default_car_exists
  cases hf : db.cars.find? (fun c => c.name == DEFAULT_CAR_NAME) with
  | some row =>
    dsimp only
    have hmem := List.mem_of_find?_eq_some hf
    have hname := List.find?_some hf
    have hmemf : row ∈ db.cars.filter (fun c => c.name == DEFAULT_CAR_NAME) :=
      List.mem_filter.mpr ⟨hmem, hname⟩
    have hpos : 0 < (db.cars.filter (fun c => c.name == DEFAULT_CAR_NAME)).length :=
      List.length_pos.mpr (List.ne_nil_of_mem hmemf)
    omega
  | none =>
    dsimp only
    have hnil : db.cars.filter (fun c => c.name == DEFAULT_CAR_NAME) = [] := by
      rw [List.filter_eq_nil_iff]
      intro c hc
      simpa using List.find?_eq_none.mp hf c hc
    cases hf2 : (db.cars ++ [(⟨db.nextCarId, DEFAULT_CAR_NAME, 3, 90, 45, 255⟩ : Car)]).find?
        (fun c => c.name == DEFAULT_CAR_NAME) with
    | some row2 =>
      dsimp only
      rw [List.filter_append, hnil]
      simp
    | none =>
      dsimp only
      rw [List.filter_append, hnil]
      simp

/-- For an identity starting with zero grants, one auto-assign call leaves
exactly one grant row for that identity. -/
theorem euhdc_edge_count (db : DB) (u : Int)
    (hnone : user_has_any_car db u = false) :
    ((ensure_user_has_default_car db u).user_cars.filter
        (fun uc => uc.user_id == u)).length = 1 := by
  unfold ensure_user_has_default_car
  simp only [hnone, Bool.false_eq_true, if_false]
  unfold assign_car_to_user
  have hne := (ensure_default_spec db).2.1
  have hfnil : (ensure_default_car_exists db).2.user_cars.filter
      (fun uc => uc.user_id == u) = [] := by
    rw [hne, List.filter_eq_nil_iff]
    intro uc hmem hcontra
    have : user_has_any_car db u = true := by
      simp only [user_has_any_car, List.any_eq_true]
      exact ⟨uc, hmem, by simpa using hcontra⟩
    rw [this] at hnone
    cases hnone
  have hany2 : (ensure_default_car_exists db).2.user_cars.any
      (fun uc => uc.user_id == u && uc.car_id == (ensure_default_car_exists db).1)
      = false := by
    cases hb : (ensure_default_car_exists db).2.user_cars.any
        (fun uc => uc.user_id == u && uc.car_id == (ensure_default_car_exists db).1) with
    | false => rfl
    | true =>
      exfalso
      rw [List.any_eq_true] at hb
      obtain ⟨uc, hmem, hp⟩ := hb
      rw [hne] at hmem
      rw [Bool.and_eq_true] at hp
      have : user_has_any_car db u = true := by
        simp only [user_has_any_car, List.any_eq_true]
        exact ⟨uc, hmem, hp.1⟩
      rw [this] at hnone
      cases hnone
  simp only [hany2, Bool.false_eq_true, if_false]
  rw [List.filter_append, hfnil]
  simp

/-- C6 counterexample: identity 7 already holds two grants and no fallback
vehicle exists; two `ensure_user_has_default_car` calls are no-ops, so the
store ends with two grant rows for the identity and zero fallback vehicle
rows — not "exactly one" of each. -/
theorem c6_counterexample :
    ((ensure_user_has_default_car (ensure_user_has_default_car dbTwoGrantsNoDefault 7)
        7).user_cars.filter (fun uc => uc.user_id == 7)).length ≠ 1 ∧
    ((ensure_user_has_default_car (ensure_user_has_default_car dbTwoGrantsNoDefault 7)
        7).cars.filter (fun c => c.name == DEFAULT_CAR_NAME)).length ≠ 1 := by decide

/-- C6 amended: for an identity starting with zero grants, in a store
holding at most one fallback vehicle row, calling the auto-assign twice
in sequence yields exactly one grant row for that identity and exactly
one fallback vehicle row; moreover the second call is always a no-op
(the call is idempotent as a store transformer), so re-granting never
duplicates an edge and the fallback vehicle is created at most once. -/
theorem c6_idempotence_amended (db : DB) (u : Int)
    (hnone : user_has_any_car db u = false)
    (hdef : (db.cars.filter (fun c => c.name == DEFAULT_CAR_NAME)).length ≤ 1) :
    (((ensure_user_has_default_car (ensure_user_has_default_car db u) u).user_cars.filter
        (fun uc => uc.user_id == u)).length = 1 ∧
     ((ensure_user_has_default_car (ensure_user_has_default_car db u) u).cars.filter
        (fun c => c.name == DEFAULT_CAR_NAME)).length = 1) ∧
    ensure_user_has_default_car (ensure_user_has_default_car db u) u
      = ensure_user_has_default_car db u := by
  have hidem := euhdc_idem db u
  rw [hidem]
  refine ⟨⟨euhdc_edge_count db u hnone, ?_⟩, rfl⟩
  rw [euhdc_eq_assign db u hnone, assign_cars]
  exact ensure_default_count db hdef

/-- C6 witness: from an empty store, two calls for identity 1 produce one
grant row and one fallback vehicle row. -/
theorem c6_witness :
    (((ensure_user_has_default_car (ensure_user_has_default_car ⟨[], [], 1⟩ 1) 1).user_cars.filter
        (fun uc => uc.user_id == 1)).length = 1 ∧
     ((ensure_user_has_default_car (ensure_user_has_default_car ⟨[], [], 1⟩ 1) 1).cars.filter
        (fun c => c.name == DEFAULT_CAR_NAME)).length = 1) ∧
    ensure_user_has_default_car (ensure_user_has_default_car ⟨[], [], 1⟩ 1) 1
      = ensure_user_has_default_car ⟨[], [], 1⟩ 1 :=
  c6_idempotence_amended ⟨[], [], 1⟩ 1 (by decide) (by decide)

/-! ## Claim C8: revocation consistency -/

/-- C8 counterexample: identity 1's stored active selection is vehicle 1,
whose grant has been revoked (no grants remain), and vehicle 1 is the
fallback vehicle.  The next resolution call re-grants the fallback and
returns the very same vehicle id — neither a different granted vehicle nor
a "no vehicle available" report. -/
theorem c8_counterexample :
    user_has_car_access dbOnlyDefault 1 1 = false ∧
    (ensure_active_car_in_session dbOnlyDefault ⟨some 1, some (.num 1)⟩ 1).1
      = some 1 := by decide

/-- C8 amended: when the grant backing the stored active selection is
gone, the next resolution call returns a vehicle the identity holds a
grant for in the resulting store; it is a different vehicle unless the
identity was left with zero grants and the revoked vehicle is exactly the
fallback vehicle, in which case the auto-assign re-grants it and returns
it again.  "No vehicle available" is never reported, since the fallback
assignment always succeeds in this store model. -/
theorem c8_revocation_amended (db : DB) (sess : Session) (u a : Int)
    (hfk : db.fkOk = true)
    (hsess : sess.active_car_id = some (.num a))
    (hrev : user_has_car_access db u a = false) :
    ∃ v db' s', ensure_active_car_in_session db sess u = (some v, db', s') ∧
      user_has_car_access db' u v = true ∧
      (v = a → user_has_any_car db u = false ∧
        (ensure_default_car_exists db).1 = a) := by
  have hbind : sess.active_car_id.bind SessVal.toInt? = some a := by
    rw [hsess]
    rfl
  cases hc : get_user_cars db u with
  | cons c0 rest =>
    have hmem : c0 ∈ get_user_cars db u := by
      rw [hc]
      exact List.mem_cons_self c0 rest
    have hacc0 := access_of_mem_get_user_cars db u c0 hmem
    rw [ensure_active_of_ne_nil db sess u (by rw [hc]; simp), hc,
      resolve_active_replace db sess u c0 rest (.inr ⟨a, hbind, hrev⟩)]
    refine ⟨c0.id, db, _, rfl, hacc0, ?_⟩
    intro hva
    exfalso
    rw [hva] at hacc0
    rw [hacc0] at hrev
    cases hrev
  | nil =>
    rw [ensure_active_of_nil db sess u hc]
    have hanyf : user_has_any_car db u = false := by
      cases hb : user_has_any_car db u with
      | false => rfl
      | true => exact absurd hc (get_user_cars_ne_nil db u hfk hb)
    cases hc2 : get_user_cars (ensure_user_has_default_car db u) u with
    | nil => exact absurd hc2 (euhdc_ne_nil db u hfk)
    | cons d0 drest =>
      by_cases hacc2 : user_has_car_access (ensure_user_has_default_car db u) u a = true
      · rw [resolve_active_keep _ sess u a d0 drest hbind hacc2]
        refine ⟨a, _, sess, rfl, hacc2, fun _ => ⟨hanyf, ?_⟩⟩
        rw [euhdc_eq_assign db u hanyf] at hacc2
        simp only [user_has_car_access, List.any_eq_true, Bool.and_eq_true,
          beq_iff_eq] at hacc2
        obtain ⟨uc, hmem, huid, hcid⟩ := hacc2
        rcases assign_edges _ u _ uc hmem with hold | hnew
        · exfalso
          rw [(ensure_default_spec db).2.1] at hold
          have : user_has_car_access db u a = true := by
            simp only [user_has_car_access, List.any_eq_true, Bool.and_eq_true,
              beq_iff_eq]
            exact ⟨uc, hold, huid, hcid⟩
          rw [this] at hrev
          cases hrev
        · rw [hnew] at hcid
          exact hcid
      · rw [resolve_active_replace _ sess u d0 drest
          (.inr ⟨a, hbind, by simpa using hacc2⟩)]
        have hmem2 : d0 ∈ get_user_cars (ensure_user_has_default_car db u) u := by
          rw [hc2]
          exact List.mem_cons_self d0 drest
        have haccd := access_of_mem_get_user_cars _ u d0 hmem2
        refine ⟨d0.id, _, _, rfl, haccd, ?_⟩
        intro hva
        exfalso
        rw [hva] at haccd
        exact hacc2 haccd

/-- C8 witness: user 1's selection (car 1) was revoked but car 2 is still
granted; resolution hands back a granted vehicle, necessarily different
from the revoked one. -/
theorem c8_witness :
    user_has_car_access dbRevoked 1 1 = false ∧
    ∃ v db' s',
      ensure_active_car_in_session dbRevoked ⟨some 1, some (.num 1)⟩ 1
        = (some v, db', s') ∧
      user_has_car_access db' 1 v = true ∧
      (v = 1 → user_has_any_car dbRevoked 1 = false ∧
        (ensure_default_car_exists dbRevoked).1 = 1) :=
  ⟨by decide, c8_revocation_amended dbRevoked ⟨some 1, some (.num 1)⟩ 1 1
    (by decide) rfl (by decide)⟩

/-! ## Claim C9: access errors do not leak vehicle existence -/

/-- The cars of the store produced by `ensure_default_car_exists` are the
original cars, possibly extended with the one freshly inserted row whose
id is `nextCarId`. -/
theorem ensure_default_cars_ids (db : DB) :
    ∀ c ∈ (ensure_default_car_exists db).2.cars, c ∈ db.cars ∨ c.id = db.nextCarId := by
  unfold ensure_default_car_exists
  cases hf : db.cars.find? (fun c => c.name == DEFAULT_CAR_NAME) with
  | some row =>
    dsimp only
    intro c hc
    exact .inl hc
  | none =>
    dsimp only
    cases hf2 : (db.cars ++ [(⟨db.nextCarId, DEFAULT_CAR_NAME, 3, 90, 45, 255⟩ : Car)]).find?
        (fun c => c.name == DEFAULT_CAR_NAME) with
    | some row2 =>
      dsimp only
      intro c hc
      rcases List.mem_append.mp hc with h1 | h1
      · exact .inl h1
      · right
        have : c = ⟨db.nextCarId, DEFAULT_CAR_NAME, 3, 90, 45, 255⟩ := by simpa using h1
        rw [this]
    | none =>
      dsimp only
      intro c hc
      rcases List.mem_append.mp hc with h1 | h1
      · exact .inl h1
      · right
        have : c = ⟨db.nextCarId, DEFAULT_CAR_NAME, 3, 90, 45, 255⟩ := by simpa using h1
        rw [this]

theorem euhdc_cars_ids (db : DB) (u : Int) :
    ∀ c ∈ (ensure_user_has_default_car db u).cars,
      c ∈ db.cars ∨ c.id = db.nextCarId := by
  unfold ensure_user_has_default_car
  by_cases h : user_has_any_car db u = true
  · simp only [h, if_true]
    intro c hc
    exact .inl hc
  · simp only [h, Bool.false_eq_true, if_false]
    rw [assign_cars]
    exact ensure_default_cars_ids db

/-- C9: requesting selection of a vehicle id that does not exist in the
store at all (and cannot come into existence during the request) produces
literally the same outcome — result kind, resulting store, resulting
session, and the mapped 403 response with its message — as requesting an
existing vehicle the identity holds no grant for.  The two failures are
indistinguishable to the caller. -/
theorem c9_nonleaking_errors (db : DB) (sess : Session)
    (u bMissing bExisting : Int)
    (hu : sess.user_id = some u)
    (hfk : db.fkOk = true)
    (hmiss : ∀ c ∈ db.cars, c.id ≠ bMissing)
    (hnew : bMissing ≠ db.nextCarId)
    (_hex : ∃ c ∈ db.cars, c.id = bExisting)
    (hng : user_has_car_access (ensure_user_has_default_car db u) u bExisting
      = false) :
    api_select_car db sess (some (.num bMissing))
      = api_select_car db sess (some (.num bExisting)) ∧
    (api_select_car db sess (some (.num bMissing))).1 = .noAccess ∧
    selectResponse (api_select_car db sess (some (.num bMissing))).1
      = (403, "No access to this car") := by
  have hmiss2 : user_has_car_access (ensure_user_has_default_car db u) u bMissing
      = false := by
    cases hb : user_has_car_access (ensure_user_has_default_car db u) u bMissing with
    | false => rfl
    | true =>
      exfalso
      have hfk2 := euhdc_fkOk db u hfk
      simp only [user_has_car_access, List.any_eq_true, Bool.and_eq_true,
        beq_iff_eq] at hb
      obtain ⟨uc, hmem, huid, hcid⟩ := hb
      simp only [DB.fkOk, List.all_eq_true] at hfk2
      have := hfk2 uc hmem
      simp only [List.any_eq_true, beq_iff_eq] at this
      obtain ⟨c, hcmem, hcid2⟩ := this
      rcases euhdc_cars_ids db u c hcmem with hc1 | hc1
      · exact hmiss c hc1 (by rw [hcid2, hcid])
      · exact hnew (by rw [← hcid, ← hcid2, hc1])
  have e1 : api_select_car db sess (some (.num bMissing))
      = (.noAccess, ensure_user_has_default_car db u, sess) := by
    unfold api_select_car
    rw [hu]
    simp [SessVal.toInt?, hmiss2]
  have e2 : api_select_car db sess (some (.num bExisting))
      = (.noAccess, ensure_user_has_default_car db u, sess) := by
    unfold api_select_car
    rw [hu]
    simp [SessVal.toInt?, hng]
  rw [e1, e2]
  exact ⟨rfl, rfl, rfl⟩

/-- C9 witness: for user 7, the nonexistent vehicle 99 and the existing
but ungranted vehicle 3 produce identical 403 outcomes. -/
theorem c9_witness :
    api_select_car dbThree ⟨some 7, none⟩ (some (.num 99))
      = api_select_car dbThree ⟨some 7, none⟩ (some (.num 3)) ∧
    (api_select_car dbThree ⟨some 7, none⟩ (some (.num 99))).1 = .noAccess ∧
    selectResponse (api_select_car dbThree ⟨some 7, none⟩ (some (.num 99))).1
      = (403, "No access to this car") :=
  c9_nonleaking_errors dbThree ⟨some 7, none⟩ 7 99 3 rfl (by decide)
    (by decide) (by decide) ⟨carGamma, by decide, by decide⟩ (by decide)

end RcCar
